import Mathlib

/-!
Verification of the retry-decision core of taskflow (`taskflow/retry.py`).

The module defines retry-controller strategies that decide, after a subflow
failure, whether to retry, revert the subflow, or revert the whole workflow,
and that produce the value for the next attempt.

Shallow embedding conventions:
* the three action constants `RETRY`, `REVERT`, `REVERT_ALL` become the
  inductive `RetryAction`;
* a history entry is a pair `(value, failures)`; the failure dictionary is
  opaque to this core, so it is a type parameter `F`;
* candidate values live in an arbitrary type `V` with decidable equality
  (Python `list.remove` compares by `==`);
* the `exc.NotFound` raised by `ForEachBase._get_next_value` becomes
  `Except.error` carrying the message string;
* methods that in Python could mutate state are additionally given
  explicit state-passing variants (`..._run`) that return the post-state of
  every object the method can reach, so that frame and purity claims are
  statable.
-/

namespace Taskflow

/-- The closed enumeration of retry actions (module constants
`RETRY`, `REVERT`, `REVERT_ALL` in the source). -/
inductive RetryAction where
  | RETRY
  | REVERT
  | REVERT_ALL
deriving DecidableEq, Repr

/-- A history is the ordered list of attempt records, oldest first; each
record pairs the value produced for that attempt with the (opaque) mapping
of task failures. -/
abbrev History (V F : Type) := List (V × F)

/-- Translation of the loop body
`try: values.remove(item) except ValueError: pass`:
Python `list.remove` deletes the first occurrence of `item` (comparing with
`==`) and raises `ValueError` when absent; the handler swallows that, so the
net effect is: remove the first occurrence if present, otherwise no-op. -/
def removeOne {V : Type} [DecidableEq V] : List V → V → List V
  | [], _ => []
  | x :: xs, a => if x = a then xs else x :: removeOne xs a

namespace ForEachBase

/-- The working copy after the loop of `_get_next_value`: starting from the
(copied) candidate list, for each history record in order remove one
occurrence of its recorded value. -/
def consumed {V F : Type} [DecidableEq V] (values : List V)
    (history : History V F) : List V :=
  history.foldl (fun vs p => removeOne vs p.1) values

/-- The message of the `exc.NotFound` raised on exhaustion. -/
def exhaustedMsg (name : String) : String :=
  "No elements left in collection of iterable retry controller " ++ name

/-- `ForEachBase._get_next_value(values, history)`: copy the collection,
remove one occurrence per history record, fail with `NotFound` (carrying the
controller name) if nothing remains, else return the first remaining
element. `name` is the controller attribute `self.name`. -/
def get_next_value {V F : Type} [DecidableEq V] (name : String)
    (values : List V) (history : History V F) : Except String V :=
  match consumed values history with
  | [] => Except.error (exhaustedMsg name)
  | v :: _ => Except.ok v

/-- `ForEachBase._on_failure(values, history)`: try `_get_next_value`;
on `NotFound` return `REVERT`, otherwise `RETRY`. -/
def on_failure {V F : Type} [DecidableEq V] (name : String)
    (values : List V) (history : History V F) : RetryAction :=
  match get_next_value name values history with
  | Except.error _ => RetryAction.REVERT
  | Except.ok _ => RetryAction.RETRY

/-- Explicit state-passing form of `_get_next_value`: the reachable mutable
objects are the caller-supplied candidate list and the history; the method
first rebinds `values` to a fresh copy (`values = list(values)`) and every
`remove` hits that copy, so the returned post-states are the untouched
originals. Result is (outcome, source collection after call, history after
call). -/
def get_next_value_run {V F : Type} [DecidableEq V] (name : String)
    (values : List V) (history : History V F) :
    Except String V × List V × History V F :=
  let working := values
  let working := history.foldl (fun vs p => removeOne vs p.1) working
  match working with
  | [] => (Except.error (exhaustedMsg name), values, history)
  | v :: _ => (Except.ok v, values, history)

/-- Explicit state-passing form of `_on_failure`, threading the same
reachable state through the `_get_next_value` call. -/
def on_failure_run {V F : Type} [DecidableEq V] (name : String)
    (values : List V) (history : History V F) :
    RetryAction × List V × History V F :=
  match get_next_value_run name values history with
  | (Except.error _, vs, h) => (RetryAction.REVERT, vs, h)
  | (Except.ok _, vs, h) => (RetryAction.RETRY, vs, h)

end ForEachBase

/-- `AlwaysRevert`: retry controller that always reverts the subflow.
Its only instance data relevant to the embedded methods is its name. -/
structure AlwaysRevert where
  name : String

/-- `AlwaysRevert.on_failure(*args, **kwargs)` ignores everything and
returns `REVERT`. -/
def AlwaysRevert.on_failure {V F : Type} (_c : AlwaysRevert)
    (_history : History V F) : RetryAction :=
  RetryAction.REVERT

/-- `AlwaysRevert.execute` is `pass`: it produces `None` and cannot fail. -/
def AlwaysRevert.execute {V F : Type} (_c : AlwaysRevert)
    (_history : History V F) : Unit :=
  ()

/-- `AlwaysRevertAll`: retry controller that always reverts the whole
flow. -/
structure AlwaysRevertAll where
  name : String

/-- `AlwaysRevertAll.on_failure(**kwargs)` ignores everything and returns
`REVERT_ALL`. -/
def AlwaysRevertAll.on_failure {V F : Type} (_c : AlwaysRevertAll)
    (_history : History V F) : RetryAction :=
  RetryAction.REVERT_ALL

/-- `AlwaysRevertAll.execute` is `pass`: it produces `None` and cannot
fail. -/
def AlwaysRevertAll.execute {V F : Type} (_c : AlwaysRevertAll)
    (_history : History V F) : Unit :=
  ()

/-- `Times(attempts)`: retries the subflow a fixed number of times; the
constructor stores `attempts` in `self._attempts` and never changes it. -/
structure Times where
  attempts : Nat

/-- `Times.on_failure(history, ...)`: `RETRY` while
`len(history) < self._attempts`, else `REVERT`. -/
def Times.on_failure {V F : Type} (t : Times)
    (history : History V F) : RetryAction :=
  if history.length < t.attempts then RetryAction.RETRY
  else RetryAction.REVERT

/-- `Times.execute(history, ...)` returns `len(history) + 1`, the 1-based
index of the upcoming attempt. -/
def Times.execute {V F : Type} (_t : Times)
    (history : History V F) : Nat :=
  history.length + 1

/-- `ForEach(values)`: the candidate collection is stored on the controller
at construction time (`self._values`). -/
structure ForEach (V : Type) where
  name : String
  values : List V

/-- `ForEach.on_failure(history, ...)` delegates to
`self._on_failure(self._values, history)`. -/
def ForEach.on_failure {V F : Type} [DecidableEq V] (c : ForEach V)
    (history : History V F) : RetryAction :=
  ForEachBase.on_failure c.name c.values history

/-- `ForEach.execute(history, ...)` delegates to
`self._get_next_value(self._values, history)`; the `NotFound` raised on an
exhausted collection propagates to the caller. -/
def ForEach.execute {V F : Type} [DecidableEq V] (c : ForEach V)
    (history : History V F) : Except String V :=
  ForEachBase.get_next_value c.name c.values history

/-- `ParameterizedForEach`: like `ForEach` but the candidate collection is
not stored; it is supplied on every call (parameter `values` precedes
`history` in the method signatures; arguments are bound by name at the
engine boundary). -/
structure ParameterizedForEach where
  name : String

/-- `ParameterizedForEach.on_failure(values, history, ...)` delegates to
`self._on_failure(values, history)`. -/
def ParameterizedForEach.on_failure {V F : Type} [DecidableEq V]
    (c : ParameterizedForEach) (values : List V)
    (history : History V F) : RetryAction :=
  ForEachBase.on_failure c.name values history

/-- `ParameterizedForEach.execute(values, history, ...)` delegates to
`self._get_next_value(values, history)`. -/
def ParameterizedForEach.execute {V F : Type} [DecidableEq V]
    (c : ParameterizedForEach) (values : List V)
    (history : History V F) : Except String V :=
  ForEachBase.get_next_value c.name values history

/-! State-passing variants of `on_failure` for every strategy, for purity
claims. Each method body only reads the fields of `self` (or ignores them),
so the faithful explicit-state translation returns the action together with
the unchanged controller state. -/

/-- State-passing `AlwaysRevert.on_failure`: (action, post-state of the
controller). The body is `return REVERT`; no attribute is written. -/
def AlwaysRevert.on_failure_run {V F : Type} (c : AlwaysRevert)
    (history : History V F) : RetryAction × AlwaysRevert :=
  (c.on_failure history, c)

/-- State-passing `AlwaysRevertAll.on_failure`: the body is
`return REVERT_ALL`; no attribute is written. -/
def AlwaysRevertAll.on_failure_run {V F : Type} (c : AlwaysRevertAll)
    (history : History V F) : RetryAction × AlwaysRevertAll :=
  (c.on_failure history, c)

/-- State-passing `Times.on_failure`: the body reads `self._attempts` and
`len(history)` and writes nothing. -/
def Times.on_failure_run {V F : Type} (t : Times)
    (history : History V F) : RetryAction × Times :=
  (t.on_failure history, t)

/-- State-passing `ForEach.on_failure`: the body reads `self._values` and
delegates to `_on_failure`, which mutates only a fresh copy. -/
def ForEach.on_failure_run {V F : Type} [DecidableEq V] (c : ForEach V)
    (history : History V F) : RetryAction × ForEach V :=
  match ForEachBase.on_failure_run c.name c.values history with
  | (a, vs, _h) => (a, { c with values := vs })

/-- State-passing `ParameterizedForEach.on_failure`: returns the action,
the post-state of the controller and the post-state of the supplied
collection. -/
def ParameterizedForEach.on_failure_run {V F : Type} [DecidableEq V]
    (c : ParameterizedForEach) (values : List V)
    (history : History V F) :
    RetryAction × ParameterizedForEach × List V :=
  match ForEachBase.on_failure_run c.name values history with
  | (a, vs, _h) => (a, c, vs)

/-! Reference definitions taken from the words of the specification
(section 4.3), for the refinement claim about `_get_next_value`. They are
written independently of the code translation above: removal is phrased as
"delete the first matching element" via `takeWhile`/`dropWhile`, and the
history is first projected to its sequence of recorded values. -/

/-- Spec wording: remove exactly one occurrence of `a` from `l` if present
(the first matching element); if `a` is absent this is a no-op. -/
def specRemoveOnce {V : Type} [DecidableEq V] (l : List V) (a : V) : List V :=
  l.takeWhile (fun x => x ≠ a) ++ (l.dropWhile (fun x => x ≠ a)).tail

/-- Spec wording: for each recorded value, in order, remove one occurrence
from the working copy. -/
def specConsume {V : Type} [DecidableEq V] : List V → List V → List V
  | values, [] => values
  | values, a :: rest => specConsume (specRemoveOnce values a) rest

/-- Spec wording of the next-value computation: start from a copy of the
collection, consume one occurrence per recorded value of the history, fail
with a not-found condition carrying the controller name if nothing is left,
else return the first remaining candidate in original collection order. -/
def specNextValue {V F : Type} [DecidableEq V] (name : String)
    (values : List V) (history : History V F) : Except String V :=
  match specConsume values (history.map Prod.fst) with
  | [] => Except.error (ForEachBase.exhaustedMsg name)
  | v :: _ => Except.ok v

/-- Membership in the closed contract set of retry actions. -/
def RetryAction.inContract (a : RetryAction) : Prop :=
  a = RetryAction.RETRY ∨ a = RetryAction.REVERT ∨ a = RetryAction.REVERT_ALL

/-! Supporting lemmas. -/

theorem removeOne_eq_specRemoveOnce {V : Type} [DecidableEq V]
    (l : List V) (a : V) : removeOne l a = specRemoveOnce l a := by
  induction l with
  | nil => rfl
  | cons x xs ih =>
    simp only [removeOne, specRemoveOnce, List.takeWhile_cons,
      List.dropWhile_cons]
    by_cases hx : x = a
    · simp [hx]
    · simp only [specRemoveOnce] at ih
      simp [hx, ih]

theorem consumed_eq_specConsume {V F : Type} [DecidableEq V]
    (values : List V) (history : History V F) :
    ForEachBase.consumed values history =
      specConsume values (history.map Prod.fst) := by
  induction history generalizing values with
  | nil => rfl
  | cons p rest ih =>
    simp only [ForEachBase.consumed, List.foldl_cons, List.map_cons,
      specConsume]
    rw [removeOne_eq_specRemoveOnce]
    exact ih (specRemoveOnce values p.1)

theorem consumed_nil {V F : Type} [DecidableEq V] (history : History V F) :
    ForEachBase.consumed ([] : List V) history = [] := by
  induction history with
  | nil => rfl
  | cons p rest ih =>
    simpa [ForEachBase.consumed, removeOne] using ih

theorem get_next_value_run_eq {V F : Type} [DecidableEq V] (name : String)
    (values : List V) (history : History V F) :
    ForEachBase.get_next_value_run name values history =
      (ForEachBase.get_next_value name values history, values, history) := by
  simp only [ForEachBase.get_next_value_run, ForEachBase.get_next_value,
    ForEachBase.consumed]
  cases history.foldl (fun vs p => removeOne vs p.1) values <;> rfl

theorem on_failure_run_eq {V F : Type} [DecidableEq V] (name : String)
    (values : List V) (history : History V F) :
    ForEachBase.on_failure_run name values history =
      (ForEachBase.on_failure name values history, values, history) := by
  simp only [ForEachBase.on_failure_run, ForEachBase.on_failure,
    get_next_value_run_eq]
  cases ForEachBase.get_next_value name values history <;> rfl

theorem foreach_run_eq {V F : Type} [DecidableEq V] (c : ForEach V)
    (history : History V F) :
    ForEach.on_failure_run c history = (c.on_failure history, c) := by
  simp [ForEach.on_failure_run, on_failure_run_eq, ForEach.on_failure]

theorem parameterized_run_eq {V F : Type} [DecidableEq V]
    (c : ParameterizedForEach) (values : List V) (history : History V F) :
    ParameterizedForEach.on_failure_run c values history =
      (c.on_failure values history, c, values) := by
  simp [ParameterizedForEach.on_failure_run, on_failure_run_eq,
    ParameterizedForEach.on_failure]

theorem inContract_of_action (a : RetryAction) : a.inContract := by
  cases a <;> simp [RetryAction.inContract]

/-! Claim theorems. -/

/-- C1: `ForEachBase._get_next_value` equals the reference definition built
from the words of the specification: copy the collection, remove one
occurrence per recorded value of the history in order (absence tolerated),
fail with a not-found condition carrying the controller name when nothing
remains, else return the first remaining candidate in original collection
order. -/
theorem get_next_value_matches_spec {V F : Type} [DecidableEq V]
    (name : String) (values : List V) (history : History V F) :
    ForEachBase.get_next_value name values history =
      specNextValue name values history := by
  simp only [ForEachBase.get_next_value, specNextValue,
    consumed_eq_specConsume]

/-- C2: for `Times` built with a positive bound `n` and any history of
length `k`, `on_failure` returns `RETRY` exactly when `k < n` and `REVERT`
exactly when `k ≥ n`, and `execute` returns `k + 1`, derived purely from
the history length. -/
theorem times_decision_and_execute {V F : Type} (n : Nat) (_hn : 0 < n)
    (history : History V F) :
    (Times.on_failure ⟨n⟩ history = RetryAction.RETRY ↔
      history.length < n) ∧
    (Times.on_failure ⟨n⟩ history = RetryAction.REVERT ↔
      n ≤ history.length) ∧
    Times.execute ⟨n⟩ history = history.length + 1 := by
  refine ⟨?_, ?_, rfl⟩ <;>
    · simp only [Times.on_failure]
      split <;> simp_all

/-- C2 witness: instantiation at bound 2 and a one-entry history. -/
theorem times_decision_and_execute_witness :
    Times.on_failure (V := Nat) (F := Nat) ⟨2⟩ [(5, 0)] =
      RetryAction.RETRY :=
  (times_decision_and_execute 2 (by decide) [(5, 0)]).1.mpr (by decide)

/-- C3: the shared decision `ForEachBase._on_failure` (used verbatim by
both `ForEach.on_failure` and `ParameterizedForEach.on_failure`) returns
`RETRY` exactly when an unconsumed candidate remains, `REVERT` exactly when
the collection is exhausted, and never `REVERT_ALL`; being a total function
into `RetryAction`, the exhaustion condition never escapes it. -/
theorem foreachbase_decision_characterization {V F : Type} [DecidableEq V]
    (name : String) (values : List V) (history : History V F) :
    (ForEachBase.on_failure name values history = RetryAction.RETRY ↔
      ForEachBase.consumed values history ≠ []) ∧
    (ForEachBase.on_failure name values history = RetryAction.REVERT ↔
      ForEachBase.consumed values history = []) ∧
    ForEachBase.on_failure name values history ≠ RetryAction.REVERT_ALL ∧
    ForEach.on_failure ⟨name, values⟩ history =
      ForEachBase.on_failure name values history ∧
    ParameterizedForEach.on_failure ⟨name⟩ values history =
      ForEachBase.on_failure name values history := by
  cases hc : ForEachBase.consumed values history with
  | nil =>
    simp [ForEachBase.on_failure, ForEachBase.get_next_value, hc,
      ForEach.on_failure, ParameterizedForEach.on_failure]
  | cons v vs =>
    simp [ForEachBase.on_failure, ForEachBase.get_next_value, hc,
      ForEach.on_failure, ParameterizedForEach.on_failure]

/-- C4: for every concrete strategy and every history (plus a collection
for `ParameterizedForEach`), `on_failure` returns a member of the closed
set containing RETRY, REVERT and REVERT_ALL; each embedded `on_failure` is
a total function, so no invocation raises. -/
theorem on_failure_closed_set {V F : Type} [DecidableEq V]
    (ar : AlwaysRevert) (ara : AlwaysRevertAll) (t : Times)
    (fe : ForEach V) (pfe : ParameterizedForEach) (values : List V)
    (history : History V F) :
    (ar.on_failure history).inContract ∧
    (ara.on_failure history).inContract ∧
    (t.on_failure history).inContract ∧
    (fe.on_failure history).inContract ∧
    (pfe.on_failure values history).inContract :=
  ⟨inContract_of_action _, inContract_of_action _, inContract_of_action _,
   inContract_of_action _, inContract_of_action _⟩

/-- C5: `AlwaysRevert.on_failure` returns REVERT and
`AlwaysRevertAll.on_failure` returns REVERT_ALL on every history, the empty
one included, and both `execute` methods are total no-ops (they produce the
unit value and cannot fail). -/
theorem always_revert_constant {V F : Type} (ar : AlwaysRevert)
    (ara : AlwaysRevertAll) (history : History V F) :
    ar.on_failure history = RetryAction.REVERT ∧
    ara.on_failure history = RetryAction.REVERT_ALL ∧
    ar.execute history = () ∧
    ara.execute history = () :=
  ⟨rfl, rfl, rfl, rfl⟩

/-- C6: `ParameterizedForEach` is observationally equivalent to `ForEach`
with the collection moved from construction to the call: for every name,
collection and history, `on_failure` returns the same action and `execute`
returns the same outcome (value or exhaustion error). -/
theorem parameterized_equiv_foreach {V F : Type} [DecidableEq V]
    (name : String) (values : List V) (history : History V F) :
    ParameterizedForEach.on_failure ⟨name⟩ values history =
      ForEach.on_failure ⟨name, values⟩ history ∧
    ParameterizedForEach.execute ⟨name⟩ values history =
      ForEach.execute ⟨name, values⟩ history :=
  ⟨rfl, rfl⟩

/-- C7: the next-value computation and the failure decision leave the
supplied collection and the history unchanged: in the explicit state-passing
translation, both return post-states equal to the inputs while computing
the same outcomes as the pure functions. -/
theorem iteration_frame {V F : Type} [DecidableEq V] (name : String)
    (values : List V) (history : History V F) :
    (ForEachBase.get_next_value_run name values history).2.1 = values ∧
    (ForEachBase.get_next_value_run name values history).2.2 = history ∧
    (ForEachBase.get_next_value_run name values history).1 =
      ForEachBase.get_next_value name values history ∧
    (ForEachBase.on_failure_run name values history).2.1 = values ∧
    (ForEachBase.on_failure_run name values history).2.2 = history ∧
    (ForEachBase.on_failure_run name values history).1 =
      ForEachBase.on_failure name values history := by
  simp [get_next_value_run_eq, on_failure_run_eq]

/-- C8: for every strategy, `on_failure` is a deterministic function of its
declared inputs with no hidden controller state: calling it twice in
sequence (threading the controller state explicitly) yields the same action
both times and leaves the state equal to the original. -/
theorem on_failure_deterministic {V F : Type} [DecidableEq V]
    (ar : AlwaysRevert) (ara : AlwaysRevertAll) (t : Times)
    (fe : ForEach V) (pfe : ParameterizedForEach) (values : List V)
    (history : History V F) :
    (AlwaysRevert.on_failure_run
        (AlwaysRevert.on_failure_run ar history).2 history).1 =
      (AlwaysRevert.on_failure_run ar history).1 ∧
    (AlwaysRevert.on_failure_run ar history).2 = ar ∧
    (AlwaysRevertAll.on_failure_run
        (AlwaysRevertAll.on_failure_run ara history).2 history).1 =
      (AlwaysRevertAll.on_failure_run ara history).1 ∧
    (AlwaysRevertAll.on_failure_run ara history).2 = ara ∧
    (Times.on_failure_run (Times.on_failure_run t history).2 history).1 =
      (Times.on_failure_run t history).1 ∧
    (Times.on_failure_run t history).2 = t ∧
    (ForEach.on_failure_run (ForEach.on_failure_run fe history).2
        history).1 = (ForEach.on_failure_run fe history).1 ∧
    (ForEach.on_failure_run fe history).2 = fe ∧
    (ParameterizedForEach.on_failure_run
        (ParameterizedForEach.on_failure_run pfe values history).2.1
        (ParameterizedForEach.on_failure_run pfe values history).2.2
        history).1 =
      (ParameterizedForEach.on_failure_run pfe values history).1 ∧
    (ParameterizedForEach.on_failure_run pfe values history).2 =
      (pfe, values) := by
  simp [AlwaysRevert.on_failure_run, AlwaysRevertAll.on_failure_run,
    Times.on_failure_run, foreach_run_eq, parameterized_run_eq]

/-- C9: an empty candidate collection counts as exhausted from the start:
for every history (the empty one included) `ForEach` with stored empty
collection and `ParameterizedForEach` given an empty collection have
`on_failure` return REVERT and `execute` fail with the not-found condition
carrying the controller name. -/
theorem empty_collection_exhausted {V F : Type} [DecidableEq V]
    (name : String) (history : History V F) :
    ForEach.on_failure ⟨name, ([] : List V)⟩ history =
      RetryAction.REVERT ∧
    ForEach.execute ⟨name, ([] : List V)⟩ history =
      Except.error (ForEachBase.exhaustedMsg name) ∧
    ParameterizedForEach.on_failure ⟨name⟩ ([] : List V) history =
      RetryAction.REVERT ∧
    ParameterizedForEach.execute ⟨name⟩ ([] : List V) history =
      Except.error (ForEachBase.exhaustedMsg name) := by
  simp [ForEach.on_failure, ForEach.execute,
    ParameterizedForEach.on_failure, ParameterizedForEach.execute,
    ForEachBase.on_failure, ForEachBase.get_next_value, consumed_nil]

/-- C10: the operations ignore the failure details stored in history: for
histories of equal length `Times.on_failure` and `Times.execute` agree, and
for histories whose recorded values form the same sequence (the failure
maps may even live in different types) the next-value computation and the
collection failure decision agree. -/
theorem decisions_ignore_failure_details {V F1 F2 : Type} [DecidableEq V]
    (n : Nat) (name : String) (values : List V)
    (h1 : History V F1) (h2 : History V F2)
    (hlen : h1.length = h2.length) :
    Times.on_failure ⟨n⟩ h1 = Times.on_failure ⟨n⟩ h2 ∧
    Times.execute ⟨n⟩ h1 = Times.execute ⟨n⟩ h2 ∧
    (h1.map Prod.fst = h2.map Prod.fst →
      ForEachBase.get_next_value name values h1 =
        ForEachBase.get_next_value name values h2 ∧
      ForEachBase.on_failure name values h1 =
        ForEachBase.on_failure name values h2) := by
  refine ⟨?_, ?_, ?_⟩
  · simp [Times.on_failure, hlen]
  · simp [Times.execute, hlen]
  · intro hv
    have hg : ForEachBase.get_next_value name values h1 =
        ForEachBase.get_next_value name values h2 := by
      simp only [ForEachBase.get_next_value, consumed_eq_specConsume, hv]
    exact ⟨hg, by simp only [ForEachBase.on_failure, hg]⟩

/-- C10 witness: histories with identical value sequences but failure
details of different types give identical decisions and next values. -/
theorem decisions_ignore_failure_details_witness :
    Times.on_failure ⟨3⟩ [((1 : Nat), (7 : Nat))] =
      Times.on_failure ⟨3⟩ [((1 : Nat), "boom")] ∧
    ForEachBase.get_next_value "r" [1, 2] [((1 : Nat), (7 : Nat))] =
      ForEachBase.get_next_value "r" [1, 2] [((1 : Nat), "boom")] :=
  ⟨(decisions_ignore_failure_details 3 "r" [1, 2]
      ([(1, 7)] : History Nat Nat) ([(1, "boom")] : History Nat String)
      rfl).1,
   ((decisions_ignore_failure_details 3 "r" [1, 2]
      ([(1, 7)] : History Nat Nat) ([(1, "boom")] : History Nat String)
      rfl).2.2 rfl).1⟩

end Taskflow
